import Mathlib

/-!
Verification of the multithreaded device I/O engine of
`DvG_Arduino_PyQt_multithread_demo`.

The definitions below are a shallow embedding of the two workers of
`DvG_dev_Base__PyQt_lib.py` (`Worker_DAQ.update`, `Worker_send.run`,
`Worker_send.add_to_queue`, the `close_*` lifecycle functions) and, where a
claim refers to it, of the variant worker in `DvG_dev_Arduino__PyQt_lib.py`
(`Arduino_pyqt.Worker_send.run`).

Machine conventions:
* Python `int` is modelled by `Nat`/`Int` (Python integers are unbounded).
* Python float values produced by exact arithmetic are modelled by `Rat`;
  the initial `np.nan` of `obtained_DAQ_rate` is modelled by `none` in
  `Option Rat`.
* A Python exception escaping a statement is modelled by `Except PyExc`.
  In particular `x % 0` and division by zero raise `PyExc.zeroDivision`,
  reading `job[0]` from an empty tuple raises `PyExc.indexError`, and
  `queue.get_nowait()` on an empty queue raises `PyExc.queueEmpty`.
* The user-supplied DAQ function is modelled by a predetermined outcome
  sequence `f : Nat -> Bool` indexed by the value of `update_counter`
  (ticks are numbered from 1), and wall-clock time by `now : Nat -> Int`
  (milliseconds at each tick, `QDateTime.currentDateTime()` read at the
  start of tick `t` is `now t`).
-/

/-- Python exceptions that the embedded code can raise. -/
inductive PyExc where
  | zeroDivision
  | queueEmpty
  | indexError
  | deviceError
  deriving DecidableEq

/-- Configuration of `Worker_DAQ` fixed at `__init__`:
`critical_not_alive_count`, `calc_DAQ_rate_every_N_iter`
(`= round(1e3 / update_interval_ms)`), the optional
`function_to_run_each_update` (given as its outcome per tick number), and
the wall clock. -/
structure DAQCtx where
  critical_not_alive_count : Nat
  calc_DAQ_rate_every_N_iter : Nat
  function_to_run_each_update : Option (Nat → Bool)
  now : Nat → Int

/-- Mutable state touched by `Worker_DAQ.update`: the counters placed on the
device object in `__init__`, the liveness flag, whether the internal QTimer
is still running, the rate bookkeeping, and the number of emissions of each
signal. -/
structure DAQState where
  update_counter : Nat
  not_alive_counter : Nat
  is_alive : Bool
  timer_active : Bool
  prev_tick : Int
  obtained_DAQ_rate : Option Rat
  daq_updated_emits : Nat
  connection_lost_emits : Nat
  deriving DecidableEq

/-- State after `Worker_DAQ.__init__` and `run` (timer started): counters 0,
device alive, `obtained_DAQ_rate = np.nan`, `prev_tick = 0`. -/
def initDAQState : DAQState :=
  { update_counter := 0
    not_alive_counter := 0
    is_alive := true
    timer_active := true
    prev_tick := 0
    obtained_DAQ_rate := none
    daq_updated_emits := 0
    connection_lost_emits := 0 }

/-- The rate-tracking block of `Worker_DAQ.update` (lines 194-203):

```
now = QtCore.QDateTime.currentDateTime()
if self.dev.update_counter == 5:
    self.prev_tick = now
elif (self.dev.update_counter % self.calc_DAQ_rate_every_N_iter == 5):
    self.dev.obtained_DAQ_rate = (self.calc_DAQ_rate_every_N_iter /
                                  self.prev_tick.msecsTo(now) * 1e3)
    self.prev_tick = now
```

`update_counter` has already been incremented when this block runs. `%` by
zero and `/` by zero raise `ZeroDivisionError` as in Python. -/
def rateStep (ctx : DAQCtx) (s : DAQState) : Except PyExc DAQState :=
  if s.update_counter = 5 then
    .ok { s with prev_tick := ctx.now s.update_counter }
  else if ctx.calc_DAQ_rate_every_N_iter = 0 then
    .error .zeroDivision
  else if s.update_counter % ctx.calc_DAQ_rate_every_N_iter = 5 then
    if ctx.now s.update_counter - s.prev_tick = 0 then
      .error .zeroDivision
    else
      .ok { s with
        obtained_DAQ_rate := some
          ((ctx.calc_DAQ_rate_every_N_iter : Rat) /
            ((ctx.now s.update_counter - s.prev_tick : Int) : Rat) * 1000)
        prev_tick := ctx.now s.update_counter }
  else
    .ok s

/-- One call of the slot `Worker_DAQ.update` (lines 184-236): increment
`update_counter`, run the rate-tracking block, then the alive-check — if
`not_alive_counter >= critical_not_alive_count` set `is_alive = False`,
stop the timer, emit `signal_DAQ_updated` and `signal_connection_lost` and
return; otherwise run the user-supplied DAQ function (incrementing
`not_alive_counter` when it returns `False`) and emit
`signal_DAQ_updated`. -/
def update (ctx : DAQCtx) (s0 : DAQState) : Except PyExc DAQState :=
  (rateStep ctx { s0 with update_counter := s0.update_counter + 1 }).bind
    (fun s2 =>
      if ctx.critical_not_alive_count ≤ s2.not_alive_counter then
        .ok { s2 with
          is_alive := false
          timer_active := false
          daq_updated_emits := s2.daq_updated_emits + 1
          connection_lost_emits := s2.connection_lost_emits + 1 }
      else
        match ctx.function_to_run_each_update with
        | none => .ok { s2 with daq_updated_emits := s2.daq_updated_emits + 1 }
        | some f =>
          if f s2.update_counter then
            .ok { s2 with daq_updated_emits := s2.daq_updated_emits + 1 }
          else
            .ok { s2 with
              not_alive_counter := s2.not_alive_counter + 1
              daq_updated_emits := s2.daq_updated_emits + 1 })

/-- One firing opportunity of the QTimer: `update` runs only while the timer
is active; after `self.timer.stop()` no further ticks occur. -/
def stepDAQ (ctx : DAQCtx) (s : DAQState) : Except PyExc DAQState :=
  if s.timer_active then update ctx s else .ok s

/-- The acquisition loop after `n` timer firing opportunities. -/
def runDAQ (ctx : DAQCtx) : Nat → Except PyExc DAQState
  | 0 => .ok initDAQState
  | n + 1 => (runDAQ ctx n).bind (stepDAQ ctx)

/-- Number of ticks among `1..m` on which the DAQ function returns `False`. -/
def failCount (f : Nat → Bool) : Nat → Nat
  | 0 => 0
  | m + 1 => failCount f m + (if f (m + 1) then 0 else 1)

/-- Python 3 `round (a / b)` for natural `a` and positive natural `b`:
round half to even on the exact quotient `a / b`. Here `a / b` and `a % b`
are the Nat quotient and remainder, so the fractional part is
`(a % b) / b`, compared against one half by comparing `2 * (a % b)` with
`b`. For the intervals used in `Worker_DAQ.__init__` this agrees with
Python's `round(1e3 / interval)` on floats: the only positive integer
intervals for which `1000 / interval` is exactly half-way between two
integers are 16, 80, 400 and 2000, and for those the float quotient is
exactly representable, so Python's banker's rounding of the float equals
banker's rounding of the exact rational. -/
def pyRoundDiv (a b : Nat) : Nat :=
  if 2 * (a % b) < b then a / b
  else if b < 2 * (a % b) then a / b + 1
  else if (a / b) % 2 = 0 then a / b else a / b + 1

/-- `calc_DAQ_rate_every_N_iter = round(1e3 / update_interval_ms)` from
`Worker_DAQ.__init__` (line 164), for a positive integer interval in ms. -/
def calcN (update_interval_ms : Nat) : Nat :=
  pyRoundDiv 1000 update_interval_ms

/-- Outcome sequence of the concrete scenario of claim C6:
`daqFunction` returns `false, false, true, false, false, false, ...`, i.e.
it returns `True` on tick 3 only. -/
def f6 : Nat → Bool := fun n => n = 3

/-- `Worker_DAQ` configuration of the concrete scenario of claim C6:
`DAQ_update_interval_ms = 10` (so `calc_DAQ_rate_every_N_iter =
round(1000/10) = 100`), `DAQ_critical_not_alive_count = 3`, outcome
sequence `f6`; the wall clock advances 10 ms per tick. -/
def ctx6 : DAQCtx :=
  { critical_not_alive_count := 3
    calc_DAQ_rate_every_N_iter := calcN 10
    function_to_run_each_update := some f6
    now := fun n => 10 * (n : Int) }

/-- `Worker_DAQ` configuration used to refute claim C2:
`DAQ_critical_not_alive_count = 1` and a DAQ function that always returns
`False`. -/
def ctxC2 : DAQCtx :=
  { critical_not_alive_count := 1
    calc_DAQ_rate_every_N_iter := 100
    function_to_run_each_update := some (fun _ => false)
    now := fun n => (n : Int) }

/-!
## Worker_send (`DvG_dev_Base__PyQt_lib.py`, lines 242-440) and the variant
`Arduino_pyqt.Worker_send` (`DvG_dev_Arduino__PyQt_lib.py`, lines 314-417)

The queue is `queue.Queue()` holding a sentinel `None` plus job tuples
`(instruction, *pass_args)`; it is modelled as a `List (Option (List
PyVal))` with `none` for the sentinel. Executing a job calls
`func(*args)` with `func = job[0]` and `args = job[1:]`; whether that call
raises is a parameter `raises : PyVal -> List PyVal -> Option PyExc` of
the embedding (the device's behaviour), and executions are recorded as
`(func, args)` pairs in order.
-/

/-- Python values as far as the queue machinery inspects them: the
`type(pass_args) is not tuple` test in `add_to_queue` and the tuple
`(instruction, *pass_args)` stored on the queue. -/
inductive PyVal where
  | vnone
  | vbool (b : Bool)
  | vint (n : Int)
  | vstr (s : String)
  | vlist (xs : List PyVal)
  | vtuple (xs : List PyVal)
  | vcallable (fname : String)

/-- `type(v) is tuple` in Python. -/
def isTuple : PyVal → Bool
  | .vtuple _ => true
  | _ => false

/-- `if type(pass_args) is not tuple: pass_args = (pass_args,)` followed by
spreading `*pass_args` (`Worker_send.add_to_queue`, lines 419-420): a
genuine tuple contributes its elements, anything else is wrapped as a
one-element tuple and contributes itself. -/
def tupleNorm (v : PyVal) : List PyVal :=
  match v with
  | .vtuple xs => xs
  | _ => [v]

/-- A queue item: the sentinel `None` or a job tuple. -/
abbrev QItem := Option (List PyVal)

/-- `Worker_send.add_to_queue(instruction, pass_args)` (lines 400-420):
puts the tuple `(instruction, *pass_args)` at the tail of the queue. -/
def add_to_queue (q : List QItem) (instruction pass_args : PyVal) :
    List QItem :=
  q ++ [some (instruction :: tupleNorm pass_args)]

/-- The queue right after `Worker_send.__init__` (lines 330-332): it holds
just the sentinel. -/
def initQueue : List QItem := [none]

/-- A sequence of `add_to_queue` calls starting from the freshly
initialised queue. -/
def enqueueAll (jobs : List (PyVal × PyVal)) : List QItem :=
  jobs.foldl (fun q ja => add_to_queue q ja.1 ja.2) initQueue

/-- One `for job in iter(self.queue.get_nowait, self.sentinel)` loop of the
base-library `Worker_send.run` (lines 361-378) with default job processing
(`alt_process_jobs_function is None`): pop items until the sentinel,
executing `func(*args)` for each job inside `try/except` — an exception is
caught and logged (`pft(err)`), and the loop continues. Returns the calls
made, the exceptions caught, and the queue contents left after the
sentinel was consumed. `get_nowait` on an empty queue raises
`queue.Empty`, and `job[0]` on an empty tuple raises `IndexError`. -/
def drainIter (raises : PyVal → List PyVal → Option PyExc) :
    List QItem → Except PyExc (List (PyVal × List PyVal) × List PyExc × List QItem)
  | [] => .error .queueEmpty
  | none :: rest => .ok ([], [], rest)
  | some [] :: _ => .error .indexError
  | some (fn :: args) :: rest =>
    let caught : List PyExc :=
      match raises fn args with
      | none => []
      | some e => [e]
    (drainIter raises rest).map
      (fun r => ((fn, args) :: r.1, caught ++ r.2.1, r.2.2))

/-- One drain iteration followed by `self.queue.put(self.sentinel)`
(line 384). -/
def drainPass (raises : PyVal → List PyVal → Option PyExc)
    (q : List QItem) :
    Except PyExc (List (PyVal × List PyVal) × List PyExc × List QItem) :=
  (drainIter raises q).map (fun r => (r.1, r.2.1, r.2.2 ++ [none]))

/-- One wake of the base-library `Worker_send.run`: `for i in range(2)`
around the drain (lines 360-384) — the first pass removes the old
sentinel, the second processes the remaining items and restores a new
sentinel. Returns all calls made, all exceptions caught, and the final
queue. -/
def processQueueBase (raises : PyVal → List PyVal → Option PyExc)
    (q : List QItem) :
    Except PyExc (List (PyVal × List PyVal) × List PyExc × List QItem) :=
  (drainPass raises q).bind (fun r1 =>
    (drainPass raises r1.2.2).map (fun r2 =>
      (r1.1 ++ r2.1, r1.2.1 ++ r2.2.1, r2.2.2)))

/-- One `for job in iter(...)` loop of the Arduino-library
`Arduino_pyqt.Worker_send.run` (lines 361-414): identical popping, but
`func(*args)` (line 402) is *not* wrapped in `try/except`, so the first
job whose call raises aborts the loop — the exception propagates out of
`run`. Returns the calls made, the escaping exception if any, and the
items still sitting in the queue. -/
def ardDrainIter (raises : PyVal → List PyVal → Option PyExc) :
    List QItem → List (PyVal × List PyVal) × Option PyExc × List QItem
  | [] => ([], some .queueEmpty, [])
  | none :: rest => ([], none, rest)
  | some [] :: rest => ([], some .indexError, rest)
  | some (fn :: args) :: rest =>
    match raises fn args with
    | some e => ([(fn, args)], some e, rest)
    | none =>
      let r := ardDrainIter raises rest
      ((fn, args) :: r.1, r.2.1, r.2.2)

/-- One iteration of the Arduino-library `while self.running` loop: drain
once, and only if no exception escaped put the sentinel back
(line 405). When an exception escapes, `run` terminates and the
unprocessed items stay in the queue forever. -/
def ardPass (raises : PyVal → List PyVal → Option PyExc) (q : List QItem) :
    List (PyVal × List PyVal) × Option PyExc × List QItem :=
  let r := ardDrainIter raises q
  match r.2.1 with
  | some e => (r.1, some e, r.2.2)
  | none => (r.1, none, r.2.2 ++ [none])

/-- A job whose device call raises, used in the counterexample to C5. -/
def jobBoom : List PyVal := [.vcallable "write", .vstr "boom"]

/-- A job queued after `jobBoom`, used in the counterexample to C5. -/
def jobSine : List PyVal := [.vcallable "write", .vstr "sine"]

/-- Device behaviour for the counterexample to C5: calling any function
with the single argument `"boom"` raises; every other call succeeds. -/
def raisesBoom : PyVal → List PyVal → Option PyExc :=
  fun _ args =>
    match args with
    | [.vstr "boom"] => some .deviceError
    | _ => none

/-!
## Engine lifecycle (`DvG_dev_Base__PyQt_lib.py`, lines 392-394, 494-514)

`close_all_threads` closes the DAQ thread (if the attribute exists) then
the send thread. `Worker_send.stop` just clears the `running` flag.
`thread.quit()` plus `thread.wait(2000)` is modelled as the thread
reaching its finished state; in the shallow embedding the bounded wait is
assumed to succeed. None of the operations can raise, which the embedding
reflects by being a total function on states.
-/

/-- A `QThread` as the close functions observe it. -/
structure QThreadState where
  finished : Bool
  deriving DecidableEq

/-- The fields of a device object (`self` in the module-level functions)
that the close functions touch. `has_thread_DAQ`/`has_thread_send` model
`hasattr(self, 'thread_DAQ')`/`hasattr(self, 'thread_send')`; inside, the
attribute is `None` when the device was not alive at creation time.
`send_running` is `worker_send.running`. -/
structure EngineState where
  has_thread_DAQ : Bool
  thread_DAQ : Option QThreadState
  has_thread_send : Bool
  thread_send : Option QThreadState
  send_running : Bool
  deriving DecidableEq

/-- `close_thread_worker_DAQ` (lines 494-500): if `thread_DAQ` is not
`None`, quit it and wait for it to finish. -/
def close_thread_worker_DAQ (e : EngineState) : EngineState :=
  match e.thread_DAQ with
  | none => e
  | some _ => { e with thread_DAQ := some ⟨true⟩ }

/-- `close_thread_worker_send` (lines 502-510): if `thread_send` is not
`None`, call `worker_send.stop()` (clearing `running`), wake the wait
condition, quit the thread and wait for it to finish. -/
def close_thread_worker_send (e : EngineState) : EngineState :=
  match e.thread_send with
  | none => e
  | some _ => { e with send_running := false, thread_send := some ⟨true⟩ }

/-- `close_all_threads` (lines 512-514). -/
def close_all_threads (e : EngineState) : EngineState :=
  let e1 := if e.has_thread_DAQ then close_thread_worker_DAQ e else e
  if e1.has_thread_send then close_thread_worker_send e1 else e1

example : calcN 10 = 100 := by decide
example : calcN 182 = 5 := by decide
example : calcN 181 = 6 := by decide
example : calcN 400 = 2 := by decide
example : calcN 2001 = 0 := by decide

example : runDAQ ⟨1, 100, some (fun _ => false), fun n => (n : Int)⟩ 1 =
    .ok { update_counter := 1, not_alive_counter := 1, is_alive := true,
          timer_active := true, prev_tick := 0, obtained_DAQ_rate := none,
          daq_updated_emits := 1, connection_lost_emits := 0 } := rfl

/-! ## Lemmas about the rate-tracking block -/

theorem rateStep_fields (ctx : DAQCtx) (s t : DAQState)
    (h : rateStep ctx s = .ok t) :
    t.update_counter = s.update_counter ∧
    t.not_alive_counter = s.not_alive_counter ∧
    t.is_alive = s.is_alive ∧
    t.timer_active = s.timer_active ∧
    t.daq_updated_emits = s.daq_updated_emits ∧
    t.connection_lost_emits = s.connection_lost_emits := by
  unfold rateStep at h
  split_ifs at h <;> (simp only [Except.ok.injEq] at h; subst h; simp)

theorem rateStep_rate_pres (ctx : DAQCtx) (s t : DAQState)
    (h : rateStep ctx s = .ok t)
    (hcond : ¬(s.update_counter ≠ 5 ∧
      s.update_counter % ctx.calc_DAQ_rate_every_N_iter = 5)) :
    t.obtained_DAQ_rate = s.obtained_DAQ_rate := by
  unfold rateStep at h
  split_ifs at h with h1 h2 h3 h4
  · simp only [Except.ok.injEq] at h; subst h; rfl
  · exact absurd ⟨h1, h3⟩ hcond
  · simp only [Except.ok.injEq] at h; subst h; rfl

theorem rateStep_warm (ctx : DAQCtx) (s t : DAQState)
    (h : rateStep ctx s = .ok t) (h5 : s.update_counter = 5) :
    t = { s with prev_tick := ctx.now s.update_counter } := by
  unfold rateStep at h
  split_ifs at h
  simp only [Except.ok.injEq] at h
  exact h.symm

theorem rateStep_assign (ctx : DAQCtx) (s t : DAQState)
    (h : rateStep ctx s = .ok t) (h5 : s.update_counter ≠ 5)
    (hm : s.update_counter % ctx.calc_DAQ_rate_every_N_iter = 5) :
    ctx.now s.update_counter - s.prev_tick ≠ 0 ∧
    t = { s with
      obtained_DAQ_rate := some
        ((ctx.calc_DAQ_rate_every_N_iter : Rat) /
          ((ctx.now s.update_counter - s.prev_tick : Int) : Rat) * 1000)
      prev_tick := ctx.now s.update_counter } := by
  unfold rateStep at h
  split_ifs at h with h1 h2 h3
  · exact absurd h1 h5
  · exact ⟨h3, by simp only [Except.ok.injEq] at h; exact h.symm⟩

theorem rateStep_skip (ctx : DAQCtx) (s t : DAQState)
    (h : rateStep ctx s = .ok t) (h5 : s.update_counter ≠ 5)
    (hm : s.update_counter % ctx.calc_DAQ_rate_every_N_iter ≠ 5) :
    t = s := by
  unfold rateStep at h
  split_ifs at h with h1 h2
  · exact absurd h1 h5
  · simp only [Except.ok.injEq] at h; exact h.symm

theorem rateStep_ok_exists (ctx : DAQCtx) (s : DAQState)
    (hN : ctx.calc_DAQ_rate_every_N_iter ≠ 0)
    (helapsed : s.update_counter ≠ 5 →
      s.update_counter % ctx.calc_DAQ_rate_every_N_iter = 5 →
      ctx.now s.update_counter - s.prev_tick ≠ 0) :
    ∃ t, rateStep ctx s = .ok t := by
  unfold rateStep
  split_ifs with h1 h2 h3
  · exact ⟨_, rfl⟩
  · exact absurd h3 (helapsed h1 h2)
  · exact ⟨_, rfl⟩
  · exact ⟨_, rfl⟩

/-! ## Structural lemmas about the acquisition loop -/

theorem stepDAQ_inactive (ctx : DAQCtx) (s : DAQState)
    (h : s.timer_active = false) : stepDAQ ctx s = .ok s := by
  unfold stepDAQ
  rw [h]
  simp

theorem runDAQ_succ_ok (ctx : DAQCtx) (n : Nat) (t : DAQState)
    (h : runDAQ ctx (n + 1) = .ok t) :
    ∃ u, runDAQ ctx n = .ok u ∧ stepDAQ ctx u = .ok t := by
  unfold runDAQ at h
  cases hu : runDAQ ctx n with
  | error e => rw [hu] at h; simp [Except.bind] at h
  | ok u =>
    rw [hu] at h
    simp only [Except.bind] at h
    exact ⟨u, rfl, h⟩

theorem runDAQ_absorb (ctx : DAQCtx) (m n : Nat) (s : DAQState)
    (hm : runDAQ ctx m = .ok s) (hs : s.timer_active = false)
    (hmn : m ≤ n) : runDAQ ctx n = .ok s := by
  induction n with
  | zero =>
    have h0 : m = 0 := Nat.le_zero.mp hmn
    subst h0
    exact hm
  | succ k ih =>
    rcases Nat.eq_or_lt_of_le hmn with he | hlt
    · subst he
      exact hm
    · have hk : runDAQ ctx k = .ok s := ih (Nat.lt_succ_iff.mp hlt)
      unfold runDAQ
      rw [hk]
      simp only [Except.bind]
      exact stepDAQ_inactive ctx s hs

theorem update_ok_elim (ctx : DAQCtx) (s t : DAQState)
    (h : update ctx s = .ok t) :
    ∃ s2, rateStep ctx { s with update_counter := s.update_counter + 1 } = .ok s2 ∧
      ((ctx.critical_not_alive_count ≤ s2.not_alive_counter ∧
        t = { s2 with
              is_alive := false
              timer_active := false
              daq_updated_emits := s2.daq_updated_emits + 1
              connection_lost_emits := s2.connection_lost_emits + 1 }) ∨
       (¬ctx.critical_not_alive_count ≤ s2.not_alive_counter ∧
        ((ctx.function_to_run_each_update = none ∧
          t = { s2 with daq_updated_emits := s2.daq_updated_emits + 1 }) ∨
         (∃ g, ctx.function_to_run_each_update = some g ∧
           ((g s2.update_counter = true ∧
             t = { s2 with daq_updated_emits := s2.daq_updated_emits + 1 }) ∨
            (g s2.update_counter = false ∧
             t = { s2 with
                   not_alive_counter := s2.not_alive_counter + 1
                   daq_updated_emits := s2.daq_updated_emits + 1 })))))) := by
  unfold update at h
  cases hr : rateStep ctx { s with update_counter := s.update_counter + 1 } with
  | error e => rw [hr] at h; simp [Except.bind] at h
  | ok s2 =>
    rw [hr] at h
    simp only [Except.bind] at h
    refine ⟨s2, rfl, ?_⟩
    by_cases hcc : ctx.critical_not_alive_count ≤ s2.not_alive_counter
    · rw [if_pos hcc] at h
      simp only [Except.ok.injEq] at h
      exact Or.inl ⟨hcc, h.symm⟩
    · rw [if_neg hcc] at h
      cases hfo : ctx.function_to_run_each_update with
      | none =>
        rw [hfo] at h
        simp only [Except.ok.injEq] at h
        exact Or.inr ⟨hcc, Or.inl ⟨rfl, h.symm⟩⟩
      | some g =>
        rw [hfo] at h
        dsimp only at h
        by_cases hfv : g s2.update_counter
        · rw [if_pos hfv] at h
          simp only [Except.ok.injEq] at h
          exact Or.inr ⟨hcc, Or.inr ⟨g, rfl, Or.inl ⟨hfv, h.symm⟩⟩⟩
        · rw [if_neg hfv] at h
          simp only [Except.ok.injEq] at h
          exact Or.inr ⟨hcc, Or.inr ⟨g, rfl, Or.inr ⟨Bool.eq_false_iff.mpr hfv, h.symm⟩⟩⟩

theorem update_ok_exists (ctx : DAQCtx) (s : DAQState)
    (hre : ∃ s2, rateStep ctx { s with update_counter := s.update_counter + 1 } = .ok s2) :
    ∃ t, update ctx s = .ok t := by
  obtain ⟨s2, hr⟩ := hre
  unfold update
  rw [hr]
  simp only [Except.bind]
  by_cases hcc : ctx.critical_not_alive_count ≤ s2.not_alive_counter
  · rw [if_pos hcc]; exact ⟨_, rfl⟩
  · rw [if_neg hcc]
    cases hfo : ctx.function_to_run_each_update with
    | none => exact ⟨_, rfl⟩
    | some g =>
      dsimp only
      by_cases hfv : g s2.update_counter = true
      · rw [if_pos hfv]; exact ⟨_, rfl⟩
      · rw [if_neg hfv]; exact ⟨_, rfl⟩

theorem update_pres (ctx : DAQCtx) (s t : DAQState)
    (h : update ctx s = .ok t) :
    ∃ s2, rateStep ctx { s with update_counter := s.update_counter + 1 } = .ok s2 ∧
      t.prev_tick = s2.prev_tick ∧ t.update_counter = s2.update_counter ∧
      t.obtained_DAQ_rate = s2.obtained_DAQ_rate := by
  obtain ⟨s2, hr, hcases⟩ := update_ok_elim ctx s t h
  refine ⟨s2, hr, ?_⟩
  rcases hcases with ⟨_, ht⟩ | ⟨_, ⟨_, ht⟩ | ⟨g, _, ⟨_, ht⟩ | ⟨_, ht⟩⟩⟩ <;>
    subst ht <;> exact ⟨rfl, rfl, rfl⟩

theorem rateStep_prev_cases (ctx : DAQCtx) (s t : DAQState)
    (h : rateStep ctx s = .ok t) :
    (s.update_counter ≠ 5 ∧ t.prev_tick = s.prev_tick ∧
      t.update_counter = s.update_counter) ∨
    (5 ≤ s.update_counter ∧ t.prev_tick = ctx.now s.update_counter ∧
      t.update_counter = s.update_counter) := by
  unfold rateStep at h
  split_ifs at h with h1 h2 h3 h4 <;>
    simp only [Except.ok.injEq] at h <;> subst h
  · exact Or.inr ⟨Nat.le_of_eq h1.symm, rfl, rfl⟩
  · exact Or.inr ⟨h3 ▸ Nat.mod_le _ _, rfl, rfl⟩
  · exact Or.inl ⟨h1, rfl, rfl⟩

theorem failCount_succ (f : Nat → Bool) (m : Nat) :
    failCount f (m + 1) = failCount f m + (if f (m + 1) then 0 else 1) := rfl

theorem failCount_mono (f : Nat → Bool) {a b : Nat} (h : a ≤ b) :
    failCount f a ≤ failCount f b := by
  induction b with
  | zero => simp [Nat.le_zero.mp h]
  | succ k ih =>
    rcases Nat.eq_or_lt_of_le h with he | hlt
    · exact Nat.le_of_eq (he ▸ rfl)
    · calc failCount f a ≤ failCount f k := ih (Nat.lt_succ_iff.mp hlt)
        _ ≤ failCount f (k + 1) := by
            rw [failCount_succ]
            exact Nat.le_add_right _ _

theorem failCount_consec (f : Nat → Bool) (a : Nat) (len : Nat)
    (h : ∀ i, a < i → i ≤ a + len → f i = false) :
    failCount f a + len ≤ failCount f (a + len) := by
  induction len with
  | zero => simp
  | succ k ih =>
    have hk : failCount f a + k ≤ failCount f (a + k) :=
      ih (fun i hi hile => h i hi (hile.trans (by omega)))
    have hf : f (a + k + 1) = false := h (a + k + 1) (by omega) (by omega)
    have hstep : failCount f (a + (k + 1)) = failCount f (a + k) + 1 := by
      have h1 : a + (k + 1) = (a + k) + 1 := by omega
      rw [h1, failCount_succ, hf]
      simp
    omega

theorem runDAQ_live_inv (c N : Nat) (f : Nat → Bool) (now : Nat → Int)
    (n : Nat) (s : DAQState)
    (hlive : ∀ m, m < n → failCount f m < c)
    (h : runDAQ ⟨c, N, some f, now⟩ n = .ok s) :
    s.update_counter = n ∧ s.not_alive_counter = failCount f n ∧
    s.is_alive = true ∧ s.timer_active = true ∧
    s.connection_lost_emits = 0 := by
  induction n generalizing s with
  | zero =>
    have h0 : initDAQState = s := by
      simpa [runDAQ] using h
    subst h0
    simp [initDAQState, failCount]
  | succ k ih =>
    obtain ⟨u, hu, hstep⟩ := runDAQ_succ_ok _ _ _ h
    obtain ⟨huc, hnac, hal, htm, hcl⟩ :=
      ih u (fun m hm => hlive m (Nat.lt_succ_of_lt hm)) hu
    unfold stepDAQ at hstep
    rw [htm] at hstep
    simp only [if_true] at hstep
    obtain ⟨s2, hr, hcases⟩ := update_ok_elim _ _ _ hstep
    obtain ⟨g1, g2, g3, g4, g5, g6⟩ := rateStep_fields _ _ _ hr
    dsimp only at g1 g2 g3 g4 g5 g6
    rcases hcases with ⟨hge, ht⟩ | ⟨hlt, hrest⟩
    · exfalso
      have hk : failCount f k < c := hlive k (Nat.lt_succ_self k)
      dsimp only at hge
      rw [g2, hnac] at hge
      omega
    · rcases hrest with ⟨hnone, ht⟩ | ⟨g, hg, hcase2⟩
      · exact absurd hnone (by simp)
      · have hfg : f = g := by
          dsimp only at hg
          injection hg
        subst hfg
        have huc2 : s2.update_counter = k + 1 := by rw [g1, huc]
        have hnac2 : s2.not_alive_counter = failCount f k := by rw [g2, hnac]
        rcases hcase2 with ⟨htrue, ht⟩ | ⟨hfalse, ht⟩
        · subst ht
          have hfk : f (k + 1) = true := huc2 ▸ htrue
          refine ⟨huc2, ?_, g3 ▸ hal, g4 ▸ htm, g6 ▸ hcl⟩
          show s2.not_alive_counter = failCount f (k + 1)
          rw [failCount_succ, hfk, hnac2]
          simp
        · subst ht
          have hfk : f (k + 1) = false := huc2 ▸ hfalse
          refine ⟨huc2, ?_, g3 ▸ hal, g4 ▸ htm, g6 ▸ hcl⟩
          show s2.not_alive_counter + 1 = failCount f (k + 1)
          rw [failCount_succ, hfk, hnac2]
          simp

theorem runDAQ_ok_total (ctx : DAQCtx)
    (hN : ctx.calc_DAQ_rate_every_N_iter ≠ 0)
    (hmono : StrictMono ctx.now) (n : Nat) :
    ∃ s, runDAQ ctx n = .ok s ∧
      ((s.prev_tick = 0 ∧ s.update_counter < 5) ∨
       ∃ u, 5 ≤ u ∧ u ≤ s.update_counter ∧ s.prev_tick = ctx.now u) := by
  induction n with
  | zero => exact ⟨initDAQState, rfl, Or.inl ⟨rfl, by decide⟩⟩
  | succ k ih =>
    obtain ⟨s, hs, hprev⟩ := ih
    by_cases hact : s.timer_active = true
    · have hre : ∃ s2,
          rateStep ctx { s with update_counter := s.update_counter + 1 } = .ok s2 := by
        apply rateStep_ok_exists ctx _ hN
        intro h5 hm
        dsimp only at h5 hm ⊢
        rcases hprev with ⟨hp0, hlt5⟩ | ⟨u, hu5, hule, hpu⟩
        · exfalso
          have hml := Nat.mod_le (s.update_counter + 1) ctx.calc_DAQ_rate_every_N_iter
          omega
        · rw [hpu]
          have hlt : u < s.update_counter + 1 := by omega
          have hmlt := hmono hlt
          omega
      obtain ⟨t, ht⟩ := update_ok_exists ctx s hre
      refine ⟨t, ?_, ?_⟩
      · unfold runDAQ
        rw [hs]
        simp only [Except.bind]
        unfold stepDAQ
        rw [hact]
        simp only [if_true]
        exact ht
      · obtain ⟨s2, hr, hpt, hut, _⟩ := update_pres ctx s t ht
        rcases rateStep_prev_cases ctx _ _ hr with ⟨hne, hp, hu⟩ | ⟨h5le, hp, hu⟩
        · dsimp only at hne hp hu
          rcases hprev with ⟨hp0, hlt5⟩ | ⟨u, hu5, hule, hpu⟩
          · refine Or.inl ⟨by rw [hpt, hp, hp0], ?_⟩
            rw [hut, hu]
            omega
          · exact Or.inr ⟨u, hu5, by rw [hut, hu]; omega, by rw [hpt, hp, hpu]⟩
        · dsimp only at h5le hp hu
          exact Or.inr ⟨s.update_counter + 1, h5le, by rw [hut, hu], by rw [hpt, hp]⟩
    · have hact' : s.timer_active = false := by
        rcases Bool.eq_false_or_eq_true s.timer_active with h | h
        · exact absurd h hact
        · exact h
      refine ⟨s, ?_, hprev⟩
      unfold runDAQ
      rw [hs]
      simp only [Except.bind]
      exact stepDAQ_inactive ctx s hact'

theorem runDAQ_fired (c N : Nat) (f : Nat → Bool) (now : Nat → Int)
    (T0 : Nat) (s : DAQState)
    (hlive : ∀ m, m < T0 → failCount f m < c)
    (hT0 : c ≤ failCount f T0)
    (h : runDAQ ⟨c, N, some f, now⟩ (T0 + 1) = .ok s) :
    s.update_counter = T0 + 1 ∧ s.not_alive_counter = failCount f T0 ∧
    s.is_alive = false ∧ s.timer_active = false ∧
    s.connection_lost_emits = 1 := by
  obtain ⟨u, hu, hstep⟩ := runDAQ_succ_ok _ _ _ h
  obtain ⟨huc, hnac, hal, htm, hcl⟩ := runDAQ_live_inv c N f now T0 u hlive hu
  unfold stepDAQ at hstep
  rw [htm] at hstep
  simp only [if_true] at hstep
  obtain ⟨s2, hr, hcases⟩ := update_ok_elim _ _ _ hstep
  obtain ⟨g1, g2, g3, g4, g5, g6⟩ := rateStep_fields _ _ _ hr
  dsimp only at g1 g2 g3 g4 g5 g6
  rcases hcases with ⟨hge, ht⟩ | ⟨hlt, _⟩
  · subst ht
    exact ⟨by rw [g1, huc], by rw [g2, hnac], rfl, rfl, by rw [g6, hcl]⟩
  · exfalso
    dsimp only at hlt
    rw [g2, hnac] at hlt
    exact hlt hT0

/-- Claim C1. For every execution of the acquisition loop whose DAQ
function returns `False` on `K` consecutive ticks with
`K ≥ critical_not_alive_count`, `signal_connection_lost` is emitted
exactly once, namely on tick `T` — the first tick at whose start the
alive-check observes `not_alive_counter ≥ critical_not_alive_count`
(`T - 1` is the first tick count at which the cumulative failure count
reaches the threshold; this reading of "the tick where the threshold is
first reached" is the one fixed by the spec's own concrete scenario,
claim C6, where the threshold is reached by the failure at tick 4 and the
signal fires on tick 5) — and no further acquisition ticks occur after
that emission: for every `n ≥ T` the loop has run exactly `T` ticks and
emitted `signal_connection_lost` exactly once. Hypotheses: the failure
counting is cumulative, the interval gives a nonzero
`calc_DAQ_rate_every_N_iter`, and the wall clock is strictly increasing
between ticks. -/
theorem C1_connection_lost_once (c N : Nat) (f : Nat → Bool) (now : Nat → Int)
    (j K : Nat) (hc : 0 < c) (hN : N ≠ 0) (hmono : StrictMono now)
    (hj : 1 ≤ j) (hK : c ≤ K)
    (hfail : ∀ i, j ≤ i → i < j + K → f i = false) :
    ∃ T, 0 < T ∧
      (c ≤ failCount f (T - 1) ∧ ∀ m, m < T - 1 → failCount f m < c) ∧
      ∀ n, ∃ s, runDAQ ⟨c, N, some f, now⟩ n = .ok s ∧
        s.connection_lost_emits = (if T ≤ n then 1 else 0) ∧
        s.update_counter = min n T := by
  have hex : ∃ m, c ≤ failCount f m := by
    refine ⟨j - 1 + c, ?_⟩
    have hcons := failCount_consec f (j - 1) c
      (fun i hi hile => hfail i (by omega) (by omega))
    omega
  have hT0 : c ≤ failCount f (Nat.find hex) := Nat.find_spec hex
  have hmin : ∀ m, m < Nat.find hex → failCount f m < c :=
    fun m hm => Nat.lt_of_not_le (Nat.find_min hex hm)
  refine ⟨Nat.find hex + 1, Nat.succ_pos _, ⟨by simpa using hT0, by simpa using hmin⟩, ?_⟩
  intro n
  by_cases hn : n ≤ Nat.find hex
  · obtain ⟨s, hs, _⟩ := runDAQ_ok_total ⟨c, N, some f, now⟩ hN hmono n
    obtain ⟨huc, hnac, hal, htm, hcl⟩ :=
      runDAQ_live_inv c N f now n s (fun m hm => hmin m (by omega)) hs
    refine ⟨s, hs, ?_, ?_⟩
    · rw [hcl, if_neg (by omega)]
    · rw [huc]
      omega
  · obtain ⟨sT, hsT, _⟩ :=
      runDAQ_ok_total ⟨c, N, some f, now⟩ hN hmono (Nat.find hex + 1)
    obtain ⟨fuc, fnac, fal, ftm, fcl⟩ :=
      runDAQ_fired c N f now (Nat.find hex) sT hmin hT0 hsT
    have habs : runDAQ ⟨c, N, some f, now⟩ n = .ok sT :=
      runDAQ_absorb _ _ _ _ hsT ftm (by omega)
    refine ⟨sT, habs, ?_, ?_⟩
    · rw [fcl, if_pos (by omega)]
    · rw [fuc]
      omega

/-- Witness for C1: the concrete run with `critical_not_alive_count = 1`,
a one-tick interval, an always-failing DAQ function and the identity
clock. -/
theorem C1_connection_lost_once_witness :
    ∃ T, 0 < T ∧
      (1 ≤ failCount (fun _ => false) (T - 1) ∧
        ∀ m, m < T - 1 → failCount (fun _ => false) m < 1) ∧
      ∀ n, ∃ s, runDAQ ⟨1, 1, some (fun _ => false), fun k => (k : Int)⟩ n = .ok s ∧
        s.connection_lost_emits = (if T ≤ n then 1 else 0) ∧
        s.update_counter = min n T :=
  C1_connection_lost_once 1 1 (fun _ => false) (fun k => (k : Int)) 1 1
    Nat.one_pos one_ne_zero Nat.strictMono_cast (le_refl 1) (le_refl 1)
    (fun i _ _ => rfl)

/-- Counterexample to claim C2 as stated. With
`DAQ_critical_not_alive_count = 1` and a DAQ function that always returns
`False` (`ctxC2`), at the observable point after tick 1 the worker has
`is_alive = true` even though `not_alive_counter < critical_not_alive_count`
is false (`1 < 1`): `is_alive` is only cleared by the alive-check at the
start of the *next* tick, so the claimed invariant
`is_alive == (consecutiveFailures < criticalThreshold)` fails between those
two ticks. -/
theorem C2_counterexample :
    ((runDAQ ctxC2 1).map fun s =>
      (s.is_alive, decide (s.not_alive_counter < ctxC2.critical_not_alive_count)))
      = .ok (true, false) := rfl

/-- Claim C2, amended. The invariant that actually holds at every
observable point between ticks is
`is_alive == (signal_connection_lost has not been emitted)`: `is_alive`
lags the counter by one tick, becoming false only on the tick at whose
start the alive-check observes `not_alive_counter ≥
critical_not_alive_count`, which is the tick where `signal_connection_lost`
is emitted. -/
theorem C2_alive_iff_no_connection_lost (ctx : DAQCtx) (n : Nat) (s : DAQState)
    (h : runDAQ ctx n = .ok s) :
    s.is_alive = true ↔ s.connection_lost_emits = 0 := by
  induction n generalizing s with
  | zero =>
    have h0 : initDAQState = s := by simpa [runDAQ] using h
    subst h0
    simp [initDAQState]
  | succ k ih =>
    obtain ⟨u, hu, hstep⟩ := runDAQ_succ_ok _ _ _ h
    have hiff := ih u hu
    unfold stepDAQ at hstep
    by_cases hact : u.timer_active = true
    · rw [hact] at hstep
      simp only [if_true] at hstep
      obtain ⟨s2, hr, hcases⟩ := update_ok_elim _ _ _ hstep
      obtain ⟨g1, g2, g3, g4, g5, g6⟩ := rateStep_fields _ _ _ hr
      dsimp only at g3 g6
      rcases hcases with ⟨hge, ht⟩ | ⟨hlt, hrest⟩
      · subst ht
        simp
      · rcases hrest with ⟨_, ht⟩ | ⟨g, _, ⟨_, ht⟩ | ⟨_, ht⟩⟩ <;> subst ht <;>
          (show s2.is_alive = true ↔ s2.connection_lost_emits = 0) <;>
          rw [g3, g6] <;> exact hiff
    · have hact' : u.timer_active = false := by
        rcases Bool.eq_false_or_eq_true u.timer_active with hh | hh
        · exact absurd hh hact
        · exact hh
      have heq := (stepDAQ_inactive ctx u hact').symm.trans
        (by unfold stepDAQ; exact hstep)
      simp only [Except.ok.injEq] at heq
      subst heq
      exact hiff

/-- Witness for the amended C2: after one tick of `ctxC2` the state is
`⟨1, 1, true, true, 0, none, 1, 0⟩` and the amended invariant holds
there. -/
theorem C2_alive_iff_witness :
    (⟨1, 1, true, true, 0, none, 1, 0⟩ : DAQState).is_alive = true ↔
      (⟨1, 1, true, true, 0, none, 1, 0⟩ : DAQState).connection_lost_emits = 0 :=
  C2_alive_iff_no_connection_lost ctxC2 1 ⟨1, 1, true, true, 0, none, 1, 0⟩ rfl

/-- Claim C3. On every tick on which the DAQ function returns `True` the
not-alive counter is left unchanged (part 1: a single `update` with a
successful DAQ call preserves `not_alive_counter`); consequently the
counter is non-decreasing across any run (part 2) and, as long as the
threshold has not yet been observed, it equals the cumulative number of
failed ticks since the start (part 3). -/
theorem C3_counter_cumulative (c N : Nat) (f : Nat → Bool) (now : Nat → Int) :
    (∀ s t, update ⟨c, N, some f, now⟩ s = .ok t →
      f (s.update_counter + 1) = true →
      t.not_alive_counter = s.not_alive_counter)
    ∧ (∀ n m s t, n ≤ m → runDAQ ⟨c, N, some f, now⟩ n = .ok s →
        runDAQ ⟨c, N, some f, now⟩ m = .ok t →
        s.not_alive_counter ≤ t.not_alive_counter)
    ∧ (∀ n s, (∀ m, m < n → failCount f m < c) →
        runDAQ ⟨c, N, some f, now⟩ n = .ok s →
        s.not_alive_counter = failCount f n) := by
  have hup : ∀ s t, update ⟨c, N, some f, now⟩ s = .ok t →
      f (s.update_counter + 1) = true →
      t.not_alive_counter = s.not_alive_counter := by
    intro s t h htrue
    obtain ⟨s2, hr, hcases⟩ := update_ok_elim _ _ _ h
    obtain ⟨g1, g2, _, _, _, _⟩ := rateStep_fields _ _ _ hr
    dsimp only at g1 g2
    rcases hcases with ⟨_, ht⟩ | ⟨_, hrest⟩
    · subst ht
      exact g2
    · rcases hrest with ⟨hnone, _⟩ | ⟨g, hg, hcase2⟩
      · exact absurd hnone (by simp)
      · have hfg : f = g := by
          dsimp only at hg
          injection hg
        subst hfg
        rcases hcase2 with ⟨_, ht⟩ | ⟨hfalse, ht⟩
        · subst ht
          exact g2
        · exfalso
          rw [g1] at hfalse
          rw [htrue] at hfalse
          exact Bool.noConfusion hfalse
  have hstep_mono : ∀ u v, stepDAQ ⟨c, N, some f, now⟩ u = .ok v →
      u.not_alive_counter ≤ v.not_alive_counter := by
    intro u v h
    unfold stepDAQ at h
    by_cases hact : u.timer_active = true
    · rw [hact] at h
      simp only [if_true] at h
      obtain ⟨s2, hr, hcases⟩ := update_ok_elim _ _ _ h
      obtain ⟨_, g2, _, _, _, _⟩ := rateStep_fields _ _ _ hr
      dsimp only at g2
      rcases hcases with ⟨_, ht⟩ | ⟨_, ⟨_, ht⟩ | ⟨g, _, ⟨_, ht⟩ | ⟨_, ht⟩⟩⟩ <;>
        subst ht <;> simp only [] <;> omega
    · have hact' : u.timer_active = false := by
        rcases Bool.eq_false_or_eq_true u.timer_active with hh | hh
        · exact absurd hh hact
        · exact hh
      have heq := (stepDAQ_inactive ⟨c, N, some f, now⟩ u hact').symm.trans
        (by unfold stepDAQ; exact h)
      simp only [Except.ok.injEq] at heq
      subst heq
      exact le_refl _
  refine ⟨hup, ?_, ?_⟩
  · intro n m s t hnm hs ht
    induction m generalizing t with
    | zero =>
      have hn0 : n = 0 := Nat.le_zero.mp hnm
      subst hn0
      rw [hs] at ht
      simp only [Except.ok.injEq] at ht
      subst ht
      exact le_refl _
    | succ k ih =>
      rcases Nat.eq_or_lt_of_le hnm with he | hlt
      · subst he
        rw [hs] at ht
        simp only [Except.ok.injEq] at ht
        subst ht
        exact le_refl _
      · obtain ⟨u, hu, hstep⟩ := runDAQ_succ_ok _ _ _ ht
        exact le_trans (ih u (Nat.lt_succ_iff.mp hlt) hu) (hstep_mono u t hstep)
  · intro n s hlive h
    exact (runDAQ_live_inv c N f now n s hlive h).2.1

/-- Witness for C3: with an always-succeeding DAQ function, one tick from
the initial state leaves the counter at `0` (part 1 at tick 1, part 3 at
`n = 0`). -/
theorem C3_counter_cumulative_witness :
    ((⟨1, 0, true, true, 0, none, 1, 0⟩ : DAQState).not_alive_counter =
      initDAQState.not_alive_counter) ∧
    initDAQState.not_alive_counter = failCount (fun _ => true) 0 :=
  ⟨(C3_counter_cumulative 1 1 (fun _ => true) (fun k => (k : Int))).1
      initDAQState ⟨1, 0, true, true, 0, none, 1, 0⟩ rfl rfl,
    (C3_counter_cumulative 1 1 (fun _ => true) (fun k => (k : Int))).2.2
      0 initDAQState (fun m hm => absurd hm (Nat.not_lt_zero m)) rfl⟩

/-- Claim C6. In the concrete scenario `ctx6` (interval 10 ms, so
`calc_DAQ_rate_every_N_iter = round(1000/10) = 100`,
`critical_not_alive_count = 3`, DAQ outcomes
`false, false, true, false, false, false, ...`), the cumulative failure
count reaches 3 at the end of tick 4, `signal_connection_lost` is emitted
on tick 5 (and never again), and no acquisition ticks occur afterwards:
for every `n`, after `n` timer firing opportunities the emission count is
`1` exactly when `n ≥ 5` and the tick count is `min n 5`. -/
theorem C6_concrete_scenario (n : Nat) :
    (runDAQ ctx6 n).map (fun s => (s.connection_lost_emits, s.update_counter)) =
      .ok ((if 5 ≤ n then 1 else 0), min n 5) := by
  have h5 : runDAQ ctx6 5 =
      .ok ⟨5, 3, false, false, 50, none, 5, 1⟩ := rfl
  by_cases hn : 5 ≤ n
  · have habs : runDAQ ctx6 n = .ok ⟨5, 3, false, false, 50, none, 5, 1⟩ :=
      runDAQ_absorb ctx6 5 n _ h5 rfl hn
    rw [habs]
    simp only [Except.map]
    rw [if_pos hn]
    have hm : min n 5 = 5 := by omega
    rw [hm]
  · push_neg at hn
    interval_cases n <;> rfl

theorem failCount_eq_zero (f : Nat → Bool) (hf : ∀ i, f i = true) :
    ∀ m, failCount f m = 0 := by
  intro m
  induction m with
  | zero => rfl
  | succ j ihj => simp [failCount_succ, hf, ihj]

theorem rate_window_keep (c N : Nat) (f : Nat → Bool) (now : Nat → Int)
    (hc : 0 < c) (hN : 5 < N) (hmono : StrictMono now) (hf : ∀ i, f i = true)
    (b : Nat) (hb : b % N = 5) :
    ∀ d, d < N → ∀ s, runDAQ ⟨c, N, some f, now⟩ b = .ok s →
      s.prev_tick = now b →
      ∃ t, runDAQ ⟨c, N, some f, now⟩ (b + d) = .ok t ∧ t.prev_tick = now b := by
  intro d
  induction d with
  | zero => exact fun _ s hs hp => ⟨s, hs, hp⟩
  | succ e ih =>
    intro hdN s hs hp
    obtain ⟨t, htr, htp⟩ := ih (by omega) s hs hp
    have hb5 : 5 ≤ b := hb ▸ Nat.mod_le b N
    have hfc := failCount_eq_zero f hf
    have hlive : ∀ a mm, mm < a → failCount f mm < c := fun a mm _ => by
      rw [hfc]; exact hc
    obtain ⟨huc, _, _, htm, _⟩ :=
      runDAQ_live_inv c N f now (b + e) t (hlive _) htr
    obtain ⟨w, hw, _⟩ :=
      runDAQ_ok_total ⟨c, N, some f, now⟩ (show N ≠ 0 by omega) hmono (b + e + 1)
    refine ⟨w, hw, ?_⟩
    obtain ⟨u, hu, hstep⟩ := runDAQ_succ_ok _ _ _ hw
    rw [htr] at hu
    have hut : t = u := by simpa using hu
    subst hut
    unfold stepDAQ at hstep
    rw [htm] at hstep
    simp only [if_true] at hstep
    obtain ⟨s2, hr, hpt, hutc, hrt⟩ := update_pres _ _ _ hstep
    have hmod : (b + e + 1) % N ≠ 5 := by
      intro hco
      rw [Nat.add_assoc, Nat.add_mod, hb,
        Nat.mod_eq_of_lt (show e + 1 < N from hdN)] at hco
      by_cases hlt : 5 + (e + 1) < N
      · rw [Nat.mod_eq_of_lt hlt] at hco
        omega
      · push_neg at hlt
        rw [Nat.mod_eq_sub_mod hlt, Nat.mod_eq_of_lt (by omega)] at hco
        omega
    have hsk := rateStep_skip _ _ _ hr
      (by dsimp only; rw [huc]; omega)
      (by dsimp only; rw [huc]; exact hmod)
    rw [hpt, hsk]
    dsimp only
    exact htp

theorem rate_window_step (c N : Nat) (f : Nat → Bool) (now : Nat → Int)
    (hc : 0 < c) (hN : 5 < N) (hmono : StrictMono now) (hf : ∀ i, f i = true)
    (b : Nat) (hb : b % N = 5) (s : DAQState)
    (hs : runDAQ ⟨c, N, some f, now⟩ b = .ok s) (hp : s.prev_tick = now b) :
    ∃ t, runDAQ ⟨c, N, some f, now⟩ (b + N) = .ok t ∧
      t.prev_tick = now (b + N) ∧
      t.obtained_DAQ_rate = some
        ((N : Rat) / ((now (b + N) - now b : Int) : Rat) * 1000) := by
  obtain ⟨u, hur, hup⟩ :=
    rate_window_keep c N f now hc hN hmono hf b hb (N - 1) (by omega) s hs hp
  have hb5 : 5 ≤ b := hb ▸ Nat.mod_le b N
  have hfc := failCount_eq_zero f hf
  have hlive : ∀ a mm, mm < a → failCount f mm < c := fun a mm _ => by
    rw [hfc]; exact hc
  obtain ⟨huc, _, _, htm, _⟩ :=
    runDAQ_live_inv c N f now (b + (N - 1)) u (hlive _) hur
  obtain ⟨w, hw, _⟩ :=
    runDAQ_ok_total ⟨c, N, some f, now⟩ (show N ≠ 0 by omega) hmono (b + N)
  have hN1 : (N - 1) + 1 = N :=
    Nat.sub_add_cancel (le_of_lt (lt_trans (by norm_num) hN))
  have hw' : runDAQ ⟨c, N, some f, now⟩ ((b + (N - 1)) + 1) = .ok w := by
    rw [Nat.add_assoc, hN1]
    exact hw
  obtain ⟨u', hu', hstep⟩ := runDAQ_succ_ok _ _ _ hw'
  rw [hur] at hu'
  have hueq : u = u' := by simpa using hu'
  subst hueq
  unfold stepDAQ at hstep
  rw [htm] at hstep
  simp only [if_true] at hstep
  obtain ⟨s2, hr, hpt, hutc, hrt⟩ := update_pres _ _ _ hstep
  have hucc : u.update_counter + 1 = b + N := by
    rw [huc, Nat.add_assoc, hN1]
  obtain ⟨hne0, ha⟩ := rateStep_assign _ _ _ hr
    (by
      dsimp only
      rw [hucc]
      exact Nat.ne_of_gt (lt_of_lt_of_le hN (Nat.le_add_left N b)))
    (by dsimp only; rw [hucc, Nat.add_mod_right]; exact hb)
  refine ⟨w, hw, ?_, ?_⟩
  · rw [hpt, ha]
    dsimp only
    rw [hucc]
  · rw [hrt, ha]
    dsimp only
    rw [hucc, hup]

theorem rate_window_iter (c N : Nat) (f : Nat → Bool) (now : Nat → Int)
    (hc : 0 < c) (hN : 5 < N) (hmono : StrictMono now) (hf : ∀ i, f i = true) :
    ∀ k, ∃ s, runDAQ ⟨c, N, some f, now⟩ (5 + k * N) = .ok s ∧
      s.prev_tick = now (5 + k * N) ∧
      (1 ≤ k → s.obtained_DAQ_rate = some
        ((N : Rat) /
          ((now (5 + k * N) - now (5 + (k - 1) * N) : Int) : Rat) * 1000)) := by
  intro k
  induction k with
  | zero =>
    -- the warm-up tick 5 sets prev_tick := now 5
    obtain ⟨w, hw, _⟩ :=
      runDAQ_ok_total ⟨c, N, some f, now⟩ (show N ≠ 0 by omega) hmono 5
    have hfc := failCount_eq_zero f hf
    have hlive : ∀ a mm, mm < a → failCount f mm < c := fun a mm _ => by
      rw [hfc]; exact hc
    obtain ⟨u, hu, hstep⟩ := runDAQ_succ_ok _ 4 _ hw
    obtain ⟨huc, _, _, htm, _⟩ :=
      runDAQ_live_inv c N f now 4 u (hlive _) hu
    unfold stepDAQ at hstep
    rw [htm] at hstep
    simp only [if_true] at hstep
    obtain ⟨s2, hr, hpt, hutc, hrt⟩ := update_pres _ _ _ hstep
    have hwarm := rateStep_warm _ _ _ hr (by dsimp only; rw [huc])
    refine ⟨w, by simpa using hw, ?_, fun hco => absurd hco (by decide)⟩
    rw [hpt, hwarm]
    dsimp only
    rw [huc]
    norm_num
  | succ k ih =>
    obtain ⟨s, hs, hp, _⟩ := ih
    have hb : (5 + k * N) % N = 5 := by
      rw [Nat.add_mul_mod_self_right]
      exact Nat.mod_eq_of_lt hN
    obtain ⟨t, ht, htp, htr⟩ :=
      rate_window_step c N f now hc hN hmono hf (5 + k * N) hb s hs hp
    have harith : 5 + k * N + N = 5 + (k + 1) * N := by ring
    refine ⟨t, by rw [← harith]; exact ht, by rw [← harith]; exact htp, ?_⟩
    intro _
    rw [← harith]
    have hk1 : (k + 1) - 1 = k := by omega
    rw [hk1]
    exact htr

/-- Claim C7. With `calc_DAQ_rate_every_N_iter = round(1000 / m) > 5` and a
live run (DAQ function always succeeds, strictly increasing clock): after
the warm-up tick 5 (which resets the window start), the obtained DAQ rate
is assigned exactly on the ticks `5 + k * round(1000/m)` (`k ≥ 1`), where
it is recomputed as the window tick count `round(1000/m)` divided by the
elapsed milliseconds since the window start `now (5 + (k-1) * round(1000/m))`,
multiplied by 1000, and the window start is then reset to the current
time; on every other tick after the warm-up both the rate and the window
start are left unchanged. -/
theorem C7_rate_recomputed (c m : Nat) (f : Nat → Bool) (now : Nat → Int)
    (hc : 0 < c) (hN : 5 < calcN m) (hmono : StrictMono now)
    (hf : ∀ i, f i = true) :
    (∀ k, 1 ≤ k →
      ∃ s, runDAQ ⟨c, calcN m, some f, now⟩ (5 + k * calcN m) = .ok s ∧
        s.obtained_DAQ_rate = some ((calcN m : Rat) /
          ((now (5 + k * calcN m) - now (5 + (k - 1) * calcN m) : Int) : Rat)
            * 1000) ∧
        s.prev_tick = now (5 + k * calcN m))
    ∧ (∀ n s t, runDAQ ⟨c, calcN m, some f, now⟩ n = .ok s →
        runDAQ ⟨c, calcN m, some f, now⟩ (n + 1) = .ok t →
        n + 1 ≠ 5 → (n + 1) % calcN m ≠ 5 →
        t.obtained_DAQ_rate = s.obtained_DAQ_rate ∧
        t.prev_tick = s.prev_tick) := by
  constructor
  · intro k hk
    obtain ⟨s, hs, hp, hr⟩ := rate_window_iter c (calcN m) f now hc hN hmono hf k
    exact ⟨s, hs, hr hk, hp⟩
  · intro n s t hsn htn h5 hmm
    obtain ⟨u, hu, hstep⟩ := runDAQ_succ_ok _ _ _ htn
    rw [hsn] at hu
    have hsu : s = u := by simpa using hu
    subst hsu
    have hfc := failCount_eq_zero f hf
    have hlive : ∀ a mm, mm < a → failCount f mm < c := fun a mm _ => by
      rw [hfc]; exact hc
    obtain ⟨huc, _, _, htm, _⟩ :=
      runDAQ_live_inv c (calcN m) f now n s (hlive _) hsn
    unfold stepDAQ at hstep
    rw [htm] at hstep
    simp only [if_true] at hstep
    obtain ⟨s2, hrr, hpt, hutc, hrt⟩ := update_pres _ _ _ hstep
    have hsk := rateStep_skip _ _ _ hrr
      (by dsimp only; rw [huc]; exact h5)
      (by dsimp only; rw [huc]; exact hmm)
    rw [hrt, hpt, hsk]
    dsimp only
    exact ⟨rfl, rfl⟩

/-- Witness for C7: interval 100 ms (`round(1000/100) = 10 > 5`), identity
clock, always-succeeding DAQ function; the first recompute tick is
`5 + 1 * 10 = 15`. -/
theorem C7_rate_recomputed_witness :
    ∃ s, runDAQ ⟨1, calcN 100, some (fun _ => true), fun k => (k : Int)⟩
        (5 + 1 * calcN 100) = .ok s ∧
      s.obtained_DAQ_rate = some ((calcN 100 : Rat) /
        ((((5 + 1 * calcN 100 : Nat) : Int) -
          ((5 + (1 - 1) * calcN 100 : Nat) : Int) : Int) : Rat) * 1000) ∧
      s.prev_tick = ((5 + 1 * calcN 100 : Nat) : Int) :=
  (C7_rate_recomputed 1 100 (fun _ => true) (fun k => (k : Int)) Nat.one_pos
    (by decide) Nat.strictMono_cast (fun _ => rfl)).1 1 (le_refl 1)

theorem rateStep_small_rate_pres (ctx : DAQCtx) (s t : DAQState)
    (hsmall : ctx.calc_DAQ_rate_every_N_iter ≤ 5)
    (h : rateStep ctx s = .ok t) :
    t.obtained_DAQ_rate = s.obtained_DAQ_rate := by
  apply rateStep_rate_pres ctx s t h
  rintro ⟨hne, hmod⟩
  by_cases hN0 : ctx.calc_DAQ_rate_every_N_iter = 0
  · rw [hN0, Nat.mod_zero] at hmod
    exact hne hmod
  · have := Nat.mod_lt s.update_counter (Nat.pos_of_ne_zero hN0)
    omega

/-- Claim C9. For every update interval `m` with `round(1000/m) ≤ 5`
(which holds for every integer interval `m ≥ 182`, part 3), the
rate-window condition `update_counter % calc_DAQ_rate_every_N_iter == 5`
holds for no tick count (part 1, for a nonzero divisor — with a zero
divisor the `%` raises `ZeroDivisionError` instead), so under any
critical count, DAQ function and clock, `obtained_DAQ_rate` is never
assigned after initialization and keeps its initial NaN (`none`) value
for the entire run (part 2). -/
theorem C9_rate_never_assigned (m : Nat) (hm : 0 < m) (h5 : calcN m ≤ 5) :
    (∀ t : Nat, 0 < calcN m → t % calcN m ≠ 5)
    ∧ (∀ (c : Nat) (fo : Option (Nat → Bool)) (now : Nat → Int) (n : Nat)
        (s : DAQState),
        runDAQ ⟨c, calcN m, fo, now⟩ n = .ok s →
        s.obtained_DAQ_rate = none)
    ∧ (∀ m2 : Nat, 182 ≤ m2 → calcN m2 ≤ 5) := by
  refine ⟨?_, ?_, ?_⟩
  · intro t h0
    have := Nat.mod_lt t h0
    omega
  · intro c fo now n
    induction n with
    | zero =>
      intro s h
      have h0 : initDAQState = s := by simpa [runDAQ] using h
      subst h0
      rfl
    | succ k ih =>
      intro s h
      obtain ⟨u, hu, hstep⟩ := runDAQ_succ_ok _ _ _ h
      have hur := ih u hu
      unfold stepDAQ at hstep
      by_cases hact : u.timer_active = true
      · rw [hact] at hstep
        simp only [if_true] at hstep
        obtain ⟨s2, hr, _, _, hrt⟩ := update_pres _ _ _ hstep
        have hpres := rateStep_small_rate_pres _ _ _ h5 hr
        dsimp only at hpres
        rw [hrt, hpres]
        exact hur
      · have hact' : u.timer_active = false := by
          rcases Bool.eq_false_or_eq_true u.timer_active with hh | hh
          · exact absurd hh hact
          · exact hh
        have heq := (stepDAQ_inactive _ u hact').symm.trans hstep
        simp only [Except.ok.injEq] at heq
        subst heq
        exact hur
  · intro m2 hm2
    have hm2pos : 0 < m2 := by omega
    have hd6 : 1000 / m2 < 6 := by
      rw [Nat.div_lt_iff_lt_mul hm2pos]
      omega
    have hdm := Nat.div_add_mod 1000 m2
    unfold calcN pyRoundDiv
    split_ifs with h1 h2 h3
    · omega
    · by_cases hk : 1000 / m2 = 5
      · exfalso
        rw [hk] at hdm
        omega
      · omega
    · omega
    · by_cases hk : 1000 / m2 = 5
      · exfalso
        rw [hk] at hdm
        omega
      · omega

/-- Witness for C9: interval 200 ms gives `round(1000/200) = 5 ≤ 5`. -/
theorem C9_rate_never_assigned_witness :
    (∀ t : Nat, 0 < calcN 200 → t % calcN 200 ≠ 5)
    ∧ (∀ (c : Nat) (fo : Option (Nat → Bool)) (now : Nat → Int) (n : Nat)
        (s : DAQState),
        runDAQ ⟨c, calcN 200, fo, now⟩ n = .ok s →
        s.obtained_DAQ_rate = none)
    ∧ (∀ m2 : Nat, 182 ≤ m2 → calcN m2 ≤ 5) :=
  C9_rate_never_assigned 200 (by decide) (by decide)

/-! ## Lemmas about the command worker queues -/

theorem drainIter_jobs (raises : PyVal → List PyVal → Option PyExc)
    (pairs : List (PyVal × List PyVal)) :
    drainIter raises ((pairs.map fun p => some (p.1 :: p.2)) ++ [none]) =
      .ok (pairs, pairs.filterMap (fun p => raises p.1 p.2), []) := by
  induction pairs with
  | nil => rfl
  | cons p rest ih =>
    simp only [List.map_cons, List.cons_append, drainIter]
    cases hrp : raises p.1 p.2 <;>
      simp [Except.map, ih, List.filterMap_cons, hrp]

theorem enqueueAll_eq (jobs : List (PyVal × PyVal)) :
    enqueueAll jobs =
      none :: jobs.map (fun ja => some (ja.1 :: tupleNorm ja.2)) := by
  have hgen : ∀ (q : List QItem) (js : List (PyVal × PyVal)),
      js.foldl (fun qq ja => add_to_queue qq ja.1 ja.2) q =
        q ++ js.map (fun ja => some (ja.1 :: tupleNorm ja.2)) := by
    intro q js
    induction js generalizing q with
    | nil => simp
    | cons a rest ih =>
      rw [List.foldl_cons, ih]
      simp [add_to_queue, List.append_assoc]
  rw [enqueueAll, hgen, initQueue]
  rfl

theorem processQueueBase_spec (raises : PyVal → List PyVal → Option PyExc)
    (jobs : List (PyVal × PyVal)) :
    processQueueBase raises (enqueueAll jobs) =
      .ok (jobs.map (fun ja => (ja.1, tupleNorm ja.2)),
        jobs.filterMap (fun ja => raises ja.1 (tupleNorm ja.2)),
        initQueue) := by
  rw [enqueueAll_eq]
  unfold processQueueBase drainPass
  rw [show drainIter raises
      (none :: jobs.map fun ja => some (ja.1 :: tupleNorm ja.2)) =
      .ok ([], [], jobs.map fun ja => some (ja.1 :: tupleNorm ja.2)) from rfl]
  simp only [Except.map, Except.bind]
  rw [show (List.map (fun ja => some (ja.1 :: tupleNorm ja.2)) jobs) =
      (List.map (fun p => some (p.1 :: p.2))
        (jobs.map fun ja => (ja.1, tupleNorm ja.2)))
    from (List.map_map (fun p : PyVal × List PyVal => some (p.1 :: p.2))
      (fun ja : PyVal × PyVal => (ja.1, tupleNorm ja.2)) jobs).symm]
  rw [drainIter_jobs raises (jobs.map fun ja => (ja.1, tupleNorm ja.2))]
  simp only [Except.map, List.nil_append]
  rw [List.filterMap_map]
  rfl

/-- Claim C4. For every sequence of Jobs enqueued with `add_to_queue`
before a single wake, the base-library command worker's drain pass
(`for i in range(2)` over `iter(queue.get_nowait, sentinel)`) executes
exactly the calls `(instruction, pass_args)` of the submitted jobs, in
submission order, each exactly once, and leaves the queue holding only
the sentinel. (`raises` is the device's behaviour; executions are
attempted calls, which happen regardless of whether they raise.) -/
theorem C4_fifo_single_wake (raises : PyVal → List PyVal → Option PyExc)
    (jobs : List (PyVal × PyVal)) :
    processQueueBase raises (enqueueAll jobs) =
      .ok (jobs.map (fun ja => (ja.1, tupleNorm ja.2)),
        jobs.filterMap (fun ja => raises ja.1 (tupleNorm ja.2)),
        initQueue) :=
  processQueueBase_spec raises jobs

/-- Counterexample to claim C5 as stated. In the Arduino-library variant
`Arduino_pyqt.Worker_send.run`, `func(*args)` (line 402) is not wrapped in
`try/except`: with the queue holding `jobBoom` (whose call raises) followed
by `jobSine`, one pass of the worker loop attempts only `jobBoom`'s call,
the exception escapes `run` (so the worker stops and the sentinel is not
restored), and the subsequently queued `jobSine` is left in the queue and
never executed — contradicting "keeps running, and still executes every
subsequently queued Job". -/
theorem C5_counterexample :
    ardPass raisesBoom [some jobBoom, some jobSine, none] =
      ([(PyVal.vcallable "write", [PyVal.vstr "boom"])],
        some PyExc.deviceError, [some jobSine, none]) := rfl

/-- Claim C5, amended. In the base-library `Worker_send.run` with default
job processing, an exception raised by a queued Job's instruction is
caught and logged and the worker keeps going: every job of the wake's
queue is still executed, in order, and the drain completes normally
(part 1). In the Arduino-library variant `Arduino_pyqt.Worker_send.run`,
however, the call is not wrapped in `try/except`: the first raising job
aborts the drain, the exception escapes `run`, and the jobs queued after
it are not executed (part 2). -/
theorem C5_exception_handling (raises : PyVal → List PyVal → Option PyExc) :
    (∀ jobs : List (PyVal × PyVal),
      processQueueBase raises (enqueueAll jobs) =
        .ok (jobs.map (fun ja => (ja.1, tupleNorm ja.2)),
          jobs.filterMap (fun ja => raises ja.1 (tupleNorm ja.2)),
          initQueue))
    ∧ (∀ (fn : PyVal) (args : List PyVal) (rest : List QItem) (e : PyExc),
        raises fn args = some e →
        ardPass raises (some (fn :: args) :: rest) =
          ([(fn, args)], some e, rest)) := by
  constructor
  · exact processQueueBase_spec raises
  · intro fn args rest e hre
    simp only [ardPass, ardDrainIter, hre]

/-- Witness for the amended C5: a concrete raising job aborts the Arduino
variant's drain pass. -/
theorem C5_exception_handling_witness :
    ardPass raisesBoom (some (PyVal.vcallable "w" :: [PyVal.vstr "boom"]) ::
        [Option.none]) =
      ([(PyVal.vcallable "w", [PyVal.vstr "boom"])],
        some PyExc.deviceError, [Option.none]) :=
  (C5_exception_handling raisesBoom).2 (PyVal.vcallable "w")
    [PyVal.vstr "boom"] [Option.none] PyExc.deviceError rfl

/-- Claim C10. `add_to_queue(instruction, pass_args)` with a `pass_args`
that is not a tuple (a list, a scalar, ...) enqueues the same job as if
`pass_args` were the one-element tuple `(pass_args,)` (parts 1 and 2),
so on a wake the instruction is invoked with exactly that one argument
(part 3); only a genuine tuple is unpacked into its elements as separate
arguments (part 4). -/
theorem C10_nontuple_single_arg (q : List QItem) (instruction pa : PyVal)
    (h : isTuple pa = false) :
    add_to_queue q instruction pa =
      add_to_queue q instruction (PyVal.vtuple [pa])
    ∧ tupleNorm pa = [pa]
    ∧ (∀ raises, processQueueBase raises (enqueueAll [(instruction, pa)]) =
        .ok ([(instruction, [pa])], (raises instruction [pa]).toList,
          initQueue))
    ∧ (∀ xs, tupleNorm (PyVal.vtuple xs) = xs) := by
  have hnorm : tupleNorm pa = [pa] := by
    cases pa <;> first | rfl | exact absurd h (by simp [isTuple])
  refine ⟨?_, hnorm, ?_, fun xs => rfl⟩
  · unfold add_to_queue
    rw [hnorm]
    rfl
  · intro raises
    rw [processQueueBase_spec raises [(instruction, pa)]]
    cases hc : raises instruction [pa] <;>
      simp [hnorm, hc, Option.toList]

/-- Witness for C10: a Python list passed as `pass_args` is delivered as
one single argument. -/
theorem C10_nontuple_single_arg_witness :
    add_to_queue initQueue (PyVal.vcallable "write")
        (PyVal.vlist [PyVal.vint 1, PyVal.vint 2]) =
      add_to_queue initQueue (PyVal.vcallable "write")
        (PyVal.vtuple [PyVal.vlist [PyVal.vint 1, PyVal.vint 2]])
    ∧ tupleNorm (PyVal.vlist [PyVal.vint 1, PyVal.vint 2]) =
        [PyVal.vlist [PyVal.vint 1, PyVal.vint 2]]
    ∧ (∀ raises, processQueueBase raises
        (enqueueAll [(PyVal.vcallable "write",
          PyVal.vlist [PyVal.vint 1, PyVal.vint 2])]) =
        .ok ([(PyVal.vcallable "write",
            [PyVal.vlist [PyVal.vint 1, PyVal.vint 2]])],
          (raises (PyVal.vcallable "write")
            [PyVal.vlist [PyVal.vint 1, PyVal.vint 2]]).toList,
          initQueue))
    ∧ (∀ xs, tupleNorm (PyVal.vtuple xs) = xs) :=
  C10_nontuple_single_arg initQueue (PyVal.vcallable "write")
    (PyVal.vlist [PyVal.vint 1, PyVal.vint 2]) rfl

/-- Claim C8. `close_all_threads` is idempotent on the engine state —
calling it a second time after it has completed changes nothing — and
after one call the observable end state is reached: the send worker's
`running` flag is cleared and both threads (when they were created) are
joined/finished. All operations involved are total state transformations;
no exception path exists, so the second call raises nothing. -/
theorem C8_close_idempotent (e : EngineState) :
    close_all_threads (close_all_threads e) = close_all_threads e
    ∧ (e.has_thread_send = true → ∀ t, e.thread_send = some t →
        (close_all_threads e).send_running = false ∧
        (close_all_threads e).thread_send = some ⟨true⟩)
    ∧ (e.has_thread_DAQ = true → ∀ t, e.thread_DAQ = some t →
        (close_all_threads e).thread_DAQ = some ⟨true⟩) := by
  obtain ⟨hd, td, hs, ts, sr⟩ := e
  cases hd <;> cases hs <;> cases td <;> cases ts <;>
    simp [close_all_threads, close_thread_worker_DAQ, close_thread_worker_send]

/-- Witness for C8: a fully-created engine (both threads present and
running). -/
theorem C8_close_idempotent_witness :
    close_all_threads (close_all_threads
        ⟨true, some ⟨false⟩, true, some ⟨false⟩, true⟩) =
      close_all_threads ⟨true, some ⟨false⟩, true, some ⟨false⟩, true⟩
    ∧ ((close_all_threads
          ⟨true, some ⟨false⟩, true, some ⟨false⟩, true⟩).send_running = false ∧
        (close_all_threads
          ⟨true, some ⟨false⟩, true, some ⟨false⟩, true⟩).thread_send =
            some ⟨true⟩)
    ∧ (close_all_threads
        ⟨true, some ⟨false⟩, true, some ⟨false⟩, true⟩).thread_DAQ =
          some ⟨true⟩ :=
  ⟨(C8_close_idempotent ⟨true, some ⟨false⟩, true, some ⟨false⟩, true⟩).1,
    (C8_close_idempotent ⟨true, some ⟨false⟩, true, some ⟨false⟩, true⟩).2.1
      rfl ⟨false⟩ rfl,
    (C8_close_idempotent ⟨true, some ⟨false⟩, true, some ⟨false⟩, true⟩).2.2
      rfl ⟨false⟩ rfl⟩
